import Mathlib

/-!
Shallow embedding of `trixi/pytorchutils.py`.

Tensors are flat lists of rationals (exact stand-ins for floats); the
shape of a tensor is its length.  The caller-supplied error function
together with the automatic-differentiation engine is abstracted as an
`Env`: `Env.backward hooked inpt` is the gradient that `err.backward()`
deposits in `inpt.grad` (`hooked` records whether the guided hooks are
registered during the backward pass), or an error when differentiation
raises.  Side effects on the model (gradient zeroing, hook
registration/removal, warnings, the `results_fn` sink) are recorded as an
event trace in program order; a Python exception is an `Except.error`
that carries the trace accumulated up to the raise point.
-/

namespace Trixi

/-- A tensor: flat list of exact scalars; its shape is its length. -/
abbrev Tensor := List ℚ

/-- Elementwise addition (`a + b` on same-shaped tensors). -/
def tadd (a b : Tensor) : Tensor := List.zipWith (· + ·) a b

/-- Elementwise scaling (`t * c`). -/
def tmul (t : Tensor) (c : ℚ) : Tensor := t.map (· * c)

/-- `torch.abs`. -/
def tabs (t : Tensor) : Tensor := t.map (fun x => |x|)

/-- `torch.clamp(t, min=0.0)`. -/
def tclamp0 (t : Tensor) : Tensor := t.map (fun x => max x 0)

/-- `torch.zeros_like(t)`. -/
def zeros_like (t : Tensor) : Tensor := List.replicate t.length 0

/-- Observable side effects of a gradient computation, in program order. -/
inductive Event where
  | zeroGrad : Event
  | regHook : Event
  | rmHook : Event
  | backward : Bool → Tensor → Event
  | warn : String → Event
  | sink : Tensor → Event
deriving DecidableEq, Repr

/-- The model capability: whether it is a `torch.nn.Module` (and hence has
`zero_grad`, `modules()` and hook registration), and how many sub-modules
`model.modules()` enumerates. -/
structure Model where
  isModule : Bool
  nModules : Nat
deriving DecidableEq, Repr

/-- The external differentiation engine fused with the caller's `err_fn`:
`backward hooked inpt` is the content of `inpt.grad` after
`err_fn(inpt).backward()` (with the guided hooks registered iff `hooked`),
or `Except.error` when differentiation raises. -/
structure Env where
  backward : Bool → Tensor → Except Unit Tensor

instance {ε α : Type} [DecidableEq ε] [DecidableEq α] : DecidableEq (Except ε α)
  | Except.error x, Except.error y => decidable_of_iff (x = y) (by simp)
  | Except.error _, Except.ok _ => isFalse (by simp)
  | Except.ok _, Except.error _ => isFalse (by simp)
  | Except.ok x, Except.ok y => decidable_of_iff (x = y) (by simp)

/-- `torch.abs(grad) if abs else grad`. -/
def postAbs (abs : Bool) (g : Tensor) : Tensor := if abs then tabs g else g

/-- `get_vanilla_image_gradient(model, inpt, err_fn, abs)`:
zero the gradients when the model is a module, differentiate, read the
input's gradient, zero again, optionally take absolute values. -/
def get_vanilla_image_gradient (E : Env) (model : Model) (inpt : Tensor) (abs : Bool) :
    List Event × Except Unit Tensor :=
  let pre : List Event := if model.isModule then [Event.zeroGrad] else []
  match E.backward false inpt with
  | Except.error e => (pre ++ [Event.backward false inpt], Except.error e)
  | Except.ok grad =>
      let post : List Event := if model.isModule then [Event.zeroGrad] else []
      (pre ++ [Event.backward false inpt] ++ post, Except.ok (postAbs abs grad))

/-- `get_guided_image_gradient(model, inpt, err_fn, abs)`:
`model.zero_grad()` (raising if the model lacks the capability), register
one backward hook per sub-module, differentiate, zero again and remove the
hooks.  When differentiation raises, the exception propagates before the
hooks are removed. -/
def get_guided_image_gradient (E : Env) (model : Model) (inpt : Tensor) (abs : Bool) :
    List Event × Except Unit Tensor :=
  if model.isModule then
    let pre : List Event := Event.zeroGrad :: List.replicate model.nModules Event.regHook
    match E.backward true inpt with
    | Except.error e => (pre ++ [Event.backward true inpt], Except.error e)
    | Except.ok grad =>
        (pre ++ [Event.backward true inpt] ++ Event.zeroGrad ::
            List.replicate model.nModules Event.rmHook,
          Except.ok (postAbs abs grad))
  else ([], Except.error ())

/-- One iteration body of the smoothing loop after the perturbation:
dispatch on `grad_type`, falling back to a warning and a zero tensor. -/
def smoothStep (E : Env) (model : Model) (grad_type : String) (inpt : Tensor) (abs : Bool) :
    List Event × Except Unit Tensor :=
  if grad_type = "vanilla" then get_vanilla_image_gradient E model inpt abs
  else if grad_type = "guided" then get_guided_image_gradient E model inpt abs
  else ([Event.warn "This grad_type is not implemented yet"], Except.ok (zeros_like inpt))

/-- The `for i in range(n_runs)` loop of `get_smooth_image_gradient`:
`randn i n` is the noise tensor drawn at run `i` for size `n`
(`torch.randn(inpt.size())`); the perturbed input is threaded to the next
iteration (noise compounds).  Returns the trace and the collected per-run
gradients, or the first raised exception. -/
def smoothLoop (E : Env) (model : Model) (abs : Bool) (eps : ℚ) (grad_type : String)
    (randn : Nat → Nat → Tensor) : Nat → Nat → Tensor → List Event × Except Unit (List Tensor)
  | _, 0, _ => ([], Except.ok [])
  | i, fuel + 1, inpt =>
      let inpt' := tadd inpt (tmul (randn i inpt.length) eps)
      let step := smoothStep E model grad_type inpt' abs
      match step.2 with
      | Except.error e => (step.1, Except.error e)
      | Except.ok g =>
          let rest := smoothLoop E model abs eps grad_type randn (i + 1) fuel inpt'
          (step.1 ++ rest.1,
            match rest.2 with
            | Except.error e => Except.error e
            | Except.ok gs => Except.ok (g :: gs))

/-- `torch.stack` succeeds on a non-empty list of same-shaped tensors. -/
def sameLens : List Tensor → Bool
  | [] => true
  | t :: ts => ts.all (fun u => u.length = t.length)

/-- `torch.mean(torch.stack(gs), dim=0)`: elementwise mean. -/
def meanStack (gs : List Tensor) : Tensor :=
  (gs.foldr tadd (zeros_like (gs.headD []))).map (fun x => x / (gs.length : ℚ))

/-- `get_smooth_image_gradient(model, inpt, err_fn, abs, n_runs, eps, grad_type)`:
run the perturbation loop, then collapse the collected gradients with
`torch.mean(torch.stack(grads), dim=0)`; `torch.stack` raises on an empty
or shape-mismatched list. -/
def get_smooth_image_gradient (E : Env) (model : Model) (inpt : Tensor) (abs : Bool)
    (n_runs : Int) (eps : ℚ) (grad_type : String) (randn : Nat → Nat → Tensor) :
    List Event × Except Unit Tensor :=
  let run := smoothLoop E model abs eps grad_type randn 0 n_runs.toNat inpt
  match run.2 with
  | Except.error e => (run.1, Except.error e)
  | Except.ok gs =>
      if gs.isEmpty then (run.1, Except.error ())
      else if sameLens gs then (run.1, Except.ok (meanStack gs))
      else (run.1, Except.error ())

/-- The `grad_type` if/elif chain of `get_input_gradient`. -/
def dispatchBranch (E : Env) (model : Model) (inpt : Tensor) (grad_type : String)
    (n_runs : Int) (eps : ℚ) (abs : Bool) (randn : Nat → Nat → Tensor) :
    List Event × Except Unit Tensor :=
  if grad_type = "vanilla" then get_vanilla_image_gradient E model inpt abs
  else if grad_type = "guided" then get_guided_image_gradient E model inpt abs
  else if grad_type = "smooth-vanilla" then
    get_smooth_image_gradient E model inpt abs n_runs eps "vanilla" randn
  else if grad_type = "smooth-guided" then
    get_smooth_image_gradient E model inpt abs n_runs eps "guided" randn
  else ([Event.warn "This grad_type is not implemented yet"], Except.ok (zeros_like inpt))

/-- `get_input_gradient(model, inpt, err_fn, grad_type, n_runs, eps, abs, results_fn)`:
`model.zero_grad()` unconditionally (raising when the model lacks the
capability), dispatch on `grad_type` with a warning-and-zeros fallback,
`model.zero_grad()` again, call `results_fn(grad)` (recorded as a `sink`
event carrying its sole positional argument), return the gradient. -/
def get_input_gradient (E : Env) (model : Model) (inpt : Tensor) (grad_type : String)
    (n_runs : Int) (eps : ℚ) (abs : Bool) (randn : Nat → Nat → Tensor) :
    List Event × Except Unit Tensor :=
  if model.isModule then
    let branch := dispatchBranch E model inpt grad_type n_runs eps abs randn
    match branch.2 with
    | Except.error e => (Event.zeroGrad :: branch.1, Except.error e)
    | Except.ok grad =>
        (Event.zeroGrad :: branch.1 ++ [Event.zeroGrad, Event.sink grad], Except.ok grad)
  else ([], Except.error ())

/-- Number of `regHook` events (hook registrations) in a trace. -/
def countRegHook (l : List Event) : Nat :=
  l.countP (fun e => match e with | Event.regHook => true | _ => false)

/-- Number of `rmHook` events (hook removals) in a trace. -/
def countRmHook (l : List Event) : Nat :=
  l.countP (fun e => match e with | Event.rmHook => true | _ => false)

/-- Number of warnings emitted in a trace. -/
def countWarn (l : List Event) : Nat :=
  l.countP (fun e => match e with | Event.warn _ => true | _ => false)

/-- Number of differentiation (`backward`) events in a trace. -/
def countBackward (l : List Event) : Nat :=
  l.countP (fun e => match e with | Event.backward _ _ => true | _ => false)

/-- The inputs at which differentiation was triggered, in order. -/
def backwardInputs (l : List Event) : List Tensor :=
  l.filterMap (fun e => match e with | Event.backward _ t => some t | _ => none)

/-- The tensors passed to the `results_fn` sink, in order. -/
def sinkArgs (l : List Event) : List Tensor :=
  l.filterMap (fun e => match e with | Event.sink t => some t | _ => none)

/-- Accumulated-gradient state after a trace (`true` = zeroed), starting
from state `s`: `zeroGrad` zeroes, `backward` deposits gradients. -/
def gradZeroed : Bool → List Event → Bool
  | s, [] => s
  | _, Event.zeroGrad :: rest => gradZeroed true rest
  | _, Event.backward _ _ :: rest => gradZeroed false rest
  | s, _ :: rest => gradZeroed s rest

/-- Every `backward` event in the trace happens while the accumulated
gradients are zeroed (starting from state `s`). -/
def allBackZeroed : Bool → List Event → Bool
  | _, [] => true
  | s, Event.backward _ _ :: rest => s && allBackZeroed false rest
  | _, Event.zeroGrad :: rest => allBackZeroed true rest
  | s, _ :: rest => allBackZeroed s rest

/-! The perturbation schedule of the smoothing loop, as pure sequences. -/

/-- The successive (already-perturbed) inputs handed to the inner
extractor by the smoothing loop, starting at run index `i`. -/
def inputsSeq (randn : Nat → Nat → Tensor) (eps : ℚ) : Nat → Nat → Tensor → List Tensor
  | _, 0, _ => []
  | i, fuel + 1, inpt =>
      let inpt' := tadd inpt (tmul (randn i inpt.length) eps)
      inpt' :: inputsSeq randn eps (i + 1) fuel inpt'

/-- Sum of the first `m` noise draws of size `L`, each scaled by `eps`. -/
def noiseSum (randn : Nat → Nat → Tensor) (eps : ℚ) (L : Nat) : Nat → Tensor
  | 0 => List.replicate L 0
  | m + 1 => tadd (noiseSum randn eps L m) (tmul (randn m L) eps)

/-! The guided backward hook (claim C7). -/

/-- The kinds of sub-module the hook can observe. -/
inductive TorchModule where
  | relu : TorchModule
  | leakyRelu : TorchModule
  | linear : TorchModule
  | conv2d : TorchModule
  | sigmoid : TorchModule
deriving DecidableEq, Repr

/-- `isinstance(module, (torch.nn.ReLU, torch.nn.LeakyReLU))`. -/
def isReLUFamily : TorchModule → Bool
  | TorchModule.relu => true
  | TorchModule.leakyRelu => true
  | _ => false

/-- `guided_relu_hook_function(module, grad_in, grad_out)`: for a
ReLU-family module, return the 1-tuple `(torch.clamp(grad_in[0], min=0.0),)`
(raising IndexError on an empty `grad_in`); otherwise fall through and
return `None`. -/
def guided_relu_hook_function (md : TorchModule) (grad_in grad_out : List Tensor) :
    Except Unit (Option (List Tensor)) :=
  if isReLUFamily md then
    match grad_in with
    | [] => Except.error ()
    | g0 :: _ => Except.ok (some [tclamp0 g0])
  else Except.ok none

/-- PyTorch `register_backward_hook` semantics: a non-`None` return value
of the hook replaces the module's incoming gradient `grad_in`. -/
def effectiveGradIn (md : TorchModule) (grad_in grad_out : List Tensor) :
    Except Unit (List Tensor) :=
  match guided_relu_hook_function md grad_in grad_out with
  | Except.error e => Except.error e
  | Except.ok none => Except.ok grad_in
  | Except.ok (some t) => Except.ok t

/-! The state merger `update_model` (claim C8). -/

/-- A state dictionary: ordered association list from layer name to
parameter value. -/
abbrev StateDict := List (String × ℚ)

/-- The dictionary's keys, in order. -/
def dictKeys (d : StateDict) : List String := d.map Prod.fst

/-- `d[k]`: value at the first entry with key `k`. -/
def dlookup (k : String) : StateDict → Option ℚ
  | [] => none
  | p :: rest => if p.1 = k then some p.2 else dlookup k rest

/-- The entry `p` after `dict.update`: replaced by `u`'s value when `u`
has the key, kept otherwise. -/
def updEntry (u : StateDict) (p : String × ℚ) : String × ℚ :=
  match dlookup p.1 u with
  | some v => (p.1, v)
  | none => p

/-- Python `dict.update`: existing keys keep their position and take the
new value; keys absent from `d` are appended in `u`'s order. -/
def dictUpdate (d u : StateDict) : StateDict :=
  d.map (updEntry u) ++ u.filter (fun p => (dlookup p.1 d).isNone)

/-- `"Update layer {}.".format(item)` message. -/
def fmtUnused (k : String) : String := "Update layer " ++ k ++ " not used."

/-- `"{} layer not updated.".format(item)` message. -/
def fmtNotUpdated (k : String) : String := k ++ " layer not updated."

/-- The key filter of step 2 of `update_model`:
`k in model_dict and k not in exclude_layers`. -/
def keepKey (model_sd : StateDict) (exclude_layers : List String) (k : String) : Bool :=
  decide (k ∈ dictKeys model_sd) && !decide (k ∈ exclude_layers)

/-- `update_model(original_model, update_dict, exclude_layers, do_warnings)`:
compute the unused and not-updated key sets, if warnings are enabled emit
one warning per element (Python set iteration order is unspecified, hence
a multiset of messages), filter the update down to known non-excluded
keys, overlay it onto the model's state dictionary and load the result.
Returns the model's new state dictionary and the warnings. -/
def update_model (model_sd update_dict : StateDict) (exclude_layers : List String)
    (do_warnings : Bool) : StateDict × Multiset String :=
  let unused := ((dictKeys update_dict).toFinset \ exclude_layers.toFinset) \
    (dictKeys model_sd).toFinset
  let notUpdated := ((dictKeys model_sd).toFinset \ exclude_layers.toFinset) \
    (dictKeys update_dict).toFinset
  let warns : Multiset String :=
    if do_warnings then unused.val.map fmtUnused + notUpdated.val.map fmtNotUpdated else 0
  let filtered := update_dict.filter (fun p => keepKey model_sd exclude_layers p.1)
  (dictUpdate model_sd filtered, warns)


/-! Trace algebra. -/

theorem countP_replicate (p : Event → Bool) (a : Event) (n : Nat) :
    List.countP p (List.replicate n a) = if p a then n else 0 := by
  induction n with
  | zero => simp
  | succ n ih =>
      rw [List.replicate_succ, List.countP_cons, ih]
      split <;> omega

theorem gradZeroed_append (s : Bool) (a b : List Event) :
    gradZeroed s (a ++ b) = gradZeroed (gradZeroed s a) b := by
  induction a generalizing s with
  | nil => rfl
  | cons e rest ih => cases e <;> simp [gradZeroed, ih]

theorem allBackZeroed_append (s : Bool) (a b : List Event) :
    allBackZeroed s (a ++ b) =
      (allBackZeroed s a && allBackZeroed (gradZeroed s a) b) := by
  induction a generalizing s with
  | nil => simp [allBackZeroed, gradZeroed]
  | cons e rest ih => cases e <;> simp [allBackZeroed, gradZeroed, ih, Bool.and_assoc]

theorem gradZeroed_replicate_regHook (s : Bool) (n : Nat) :
    gradZeroed s (List.replicate n Event.regHook) = s := by
  induction n with
  | zero => rfl
  | succ n ih => simp [List.replicate_succ, gradZeroed, ih]

theorem gradZeroed_replicate_rmHook (s : Bool) (n : Nat) :
    gradZeroed s (List.replicate n Event.rmHook) = s := by
  induction n with
  | zero => rfl
  | succ n ih => simp [List.replicate_succ, gradZeroed, ih]

theorem allBackZeroed_replicate_regHook (s : Bool) (n : Nat) :
    allBackZeroed s (List.replicate n Event.regHook) = true := by
  induction n with
  | zero => rfl
  | succ n ih => simp [List.replicate_succ, allBackZeroed, ih]

theorem allBackZeroed_replicate_rmHook (s : Bool) (n : Nat) :
    allBackZeroed s (List.replicate n Event.rmHook) = true := by
  induction n with
  | zero => rfl
  | succ n ih => simp [List.replicate_succ, allBackZeroed, ih]

/-! Success and failure shapes of the two direct extractors. -/

theorem vanilla_ok {E : Env} {model : Model} {inpt g : Tensor} {abs : Bool}
    (hm : model.isModule = true) (hg : E.backward false inpt = Except.ok g) :
    get_vanilla_image_gradient E model inpt abs =
      ([Event.zeroGrad, Event.backward false inpt, Event.zeroGrad],
        Except.ok (postAbs abs g)) := by
  simp [get_vanilla_image_gradient, hm, hg]

theorem vanilla_err {E : Env} {model : Model} {inpt : Tensor} {abs : Bool} {e : Unit}
    (hm : model.isModule = true) (hg : E.backward false inpt = Except.error e) :
    get_vanilla_image_gradient E model inpt abs =
      ([Event.zeroGrad, Event.backward false inpt], Except.error e) := by
  simp [get_vanilla_image_gradient, hm, hg]

theorem guided_ok {E : Env} {model : Model} {inpt g : Tensor} {abs : Bool}
    (hm : model.isModule = true) (hg : E.backward true inpt = Except.ok g) :
    get_guided_image_gradient E model inpt abs =
      (Event.zeroGrad :: List.replicate model.nModules Event.regHook ++
          [Event.backward true inpt] ++ Event.zeroGrad ::
          List.replicate model.nModules Event.rmHook,
        Except.ok (postAbs abs g)) := by
  simp [get_guided_image_gradient, hm, hg]

theorem guided_err {E : Env} {model : Model} {inpt : Tensor} {abs : Bool} {e : Unit}
    (hm : model.isModule = true) (hg : E.backward true inpt = Except.error e) :
    get_guided_image_gradient E model inpt abs =
      (Event.zeroGrad :: List.replicate model.nModules Event.regHook ++
          [Event.backward true inpt], Except.error e) := by
  simp [get_guided_image_gradient, hm, hg]

/-! Tensor arithmetic lemmas. -/

theorem length_tadd (a b : Tensor) : (tadd a b).length = min a.length b.length := by
  simp [tadd]

theorem length_tmul (t : Tensor) (c : ℚ) : (tmul t c).length = t.length := by
  simp [tmul]

theorem length_postAbs (abs : Bool) (g : Tensor) : (postAbs abs g).length = g.length := by
  cases abs <;> simp [postAbs, tabs]

theorem tadd_zeros (a : Tensor) : tadd a (List.replicate a.length 0) = a := by
  induction a with
  | nil => rfl
  | cons x xs ih =>
      simp only [tadd] at ih
      simp [tadd, List.replicate_succ, ih]

theorem tmul_zero (t : Tensor) : tmul t 0 = List.replicate t.length 0 := by
  induction t with
  | nil => rfl
  | cons x xs ih =>
      simp only [tmul] at ih
      simp [tmul, List.replicate_succ, ih]

theorem tadd_assoc (a b c : Tensor) : tadd (tadd a b) c = tadd a (tadd b c) := by
  induction a generalizing b c with
  | nil => simp [tadd]
  | cons x xs ih =>
      cases b with
      | nil => simp [tadd]
      | cons y ys =>
          cases c with
          | nil => simp [tadd]
          | cons z zs =>
              simp only [tadd] at ih
              simp [tadd, add_assoc, ih]

theorem noiseSum_length (randn : Nat → Nat → Tensor) (eps : ℚ) (L : Nat)
    (hr : ∀ i n, (randn i n).length = n) (m : Nat) :
    (noiseSum randn eps L m).length = L := by
  induction m with
  | zero => simp [noiseSum]
  | succ m ih => simp [noiseSum, length_tadd, length_tmul, hr, ih]

theorem inputsSeq_mem_length (randn : Nat → Nat → Tensor) (eps : ℚ)
    (hr : ∀ i n, (randn i n).length = n) :
    ∀ fuel i inpt t, t ∈ inputsSeq randn eps i fuel inpt → t.length = inpt.length := by
  intro fuel
  induction fuel with
  | zero => intro i inpt t ht; simp [inputsSeq] at ht
  | succ fuel ih =>
      intro i inpt t ht
      have hlen : (tadd inpt (tmul (randn i inpt.length) eps)).length = inpt.length := by
        simp [length_tadd, length_tmul, hr]
      simp only [inputsSeq, List.mem_cons] at ht
      rcases ht with h | h
      · rw [h, hlen]
      · rw [ih (i + 1) _ t h, hlen]

theorem inputsSeq_length_list (randn : Nat → Nat → Tensor) (eps : ℚ) :
    ∀ fuel i inpt, (inputsSeq randn eps i fuel inpt).length = fuel := by
  intro fuel
  induction fuel with
  | zero => intro i inpt; rfl
  | succ fuel ih => intro i inpt; simp [inputsSeq, ih]

theorem inputsSeq_eq_noiseSum (randn : Nat → Nat → Tensor) (eps : ℚ) (inpt0 : Tensor)
    (hr : ∀ i n, (randn i n).length = n) :
    ∀ fuel i,
      inputsSeq randn eps i fuel (tadd inpt0 (noiseSum randn eps inpt0.length i)) =
        (List.range fuel).map
          (fun k => tadd inpt0 (noiseSum randn eps inpt0.length (i + k + 1))) := by
  intro fuel
  induction fuel with
  | zero => intro i; rfl
  | succ fuel ih =>
      intro i
      have hl : (tadd inpt0 (noiseSum randn eps inpt0.length i)).length = inpt0.length := by
        simp [length_tadd, noiseSum_length randn eps inpt0.length hr]
      have hstep :
          tadd (tadd inpt0 (noiseSum randn eps inpt0.length i)) (tmul (randn i inpt0.length) eps) =
            tadd inpt0 (noiseSum randn eps inpt0.length (i + 1)) := by
        rw [tadd_assoc]; rfl
      simp only [inputsSeq, hl, hstep, ih (i + 1)]
      rw [List.range_succ_eq_map, List.map_cons, List.map_map]
      have hfun :
          ((fun k => tadd inpt0 (noiseSum randn eps inpt0.length (i + k + 1))) ∘ Nat.succ) =
            fun k => tadd inpt0 (noiseSum randn eps inpt0.length (i + 1 + k + 1)) := by
        funext k
        simp only [Function.comp_apply, Nat.succ_eq_add_one]
        have hk : i + (k + 1) + 1 = i + 1 + k + 1 := by omega
        rw [hk]
      rw [hfun]

theorem inputsSeq_from_start (randn : Nat → Nat → Tensor) (eps : ℚ) (inpt : Tensor)
    (hr : ∀ i n, (randn i n).length = n) (n : Nat) :
    inputsSeq randn eps 0 n inpt =
      (List.range n).map (fun k => tadd inpt (noiseSum randn eps inpt.length (k + 1))) := by
  have h0 : tadd inpt (noiseSum randn eps inpt.length 0) = inpt := by
    simp [noiseSum, tadd_zeros]
  have h := inputsSeq_eq_noiseSum randn eps inpt hr n 0
  rw [h0] at h
  simpa using h

/-! Trace observers: cons, append and replicate simp lemmas. -/

@[simp] theorem backwardInputs_nil : backwardInputs [] = [] := rfl

@[simp] theorem backwardInputs_zeroGrad (l : List Event) :
    backwardInputs (Event.zeroGrad :: l) = backwardInputs l := rfl

@[simp] theorem backwardInputs_regHook (l : List Event) :
    backwardInputs (Event.regHook :: l) = backwardInputs l := rfl

@[simp] theorem backwardInputs_rmHook (l : List Event) :
    backwardInputs (Event.rmHook :: l) = backwardInputs l := rfl

@[simp] theorem backwardInputs_warn (m : String) (l : List Event) :
    backwardInputs (Event.warn m :: l) = backwardInputs l := rfl

@[simp] theorem backwardInputs_sink (t : Tensor) (l : List Event) :
    backwardInputs (Event.sink t :: l) = backwardInputs l := rfl

@[simp] theorem backwardInputs_backward (b : Bool) (t : Tensor) (l : List Event) :
    backwardInputs (Event.backward b t :: l) = t :: backwardInputs l := rfl

@[simp] theorem backwardInputs_append (a b : List Event) :
    backwardInputs (a ++ b) = backwardInputs a ++ backwardInputs b := by
  simp [backwardInputs]

@[simp] theorem backwardInputs_replicate_regHook (n : Nat) :
    backwardInputs (List.replicate n Event.regHook) = [] := by
  induction n with
  | zero => rfl
  | succ n ih => simp [List.replicate_succ, ih]

@[simp] theorem backwardInputs_replicate_rmHook (n : Nat) :
    backwardInputs (List.replicate n Event.rmHook) = [] := by
  induction n with
  | zero => rfl
  | succ n ih => simp [List.replicate_succ, ih]

@[simp] theorem countBackward_nil : countBackward [] = 0 := rfl

@[simp] theorem countBackward_append (a b : List Event) :
    countBackward (a ++ b) = countBackward a + countBackward b := by
  simp [countBackward, List.countP_append]

@[simp] theorem countBackward_zeroGrad (l : List Event) :
    countBackward (Event.zeroGrad :: l) = countBackward l := by
  simp [countBackward, List.countP_cons]

@[simp] theorem countBackward_regHook (l : List Event) :
    countBackward (Event.regHook :: l) = countBackward l := by
  simp [countBackward, List.countP_cons]

@[simp] theorem countBackward_rmHook (l : List Event) :
    countBackward (Event.rmHook :: l) = countBackward l := by
  simp [countBackward, List.countP_cons]

@[simp] theorem countBackward_warn (m : String) (l : List Event) :
    countBackward (Event.warn m :: l) = countBackward l := by
  simp [countBackward, List.countP_cons]

@[simp] theorem countBackward_sink (t : Tensor) (l : List Event) :
    countBackward (Event.sink t :: l) = countBackward l := by
  simp [countBackward, List.countP_cons]

@[simp] theorem countBackward_backward (b : Bool) (t : Tensor) (l : List Event) :
    countBackward (Event.backward b t :: l) = countBackward l + 1 := by
  simp [countBackward, List.countP_cons]

@[simp] theorem countBackward_replicate_regHook (n : Nat) :
    countBackward (List.replicate n Event.regHook) = 0 := by
  simp [countBackward, countP_replicate]

@[simp] theorem countBackward_replicate_rmHook (n : Nat) :
    countBackward (List.replicate n Event.rmHook) = 0 := by
  simp [countBackward, countP_replicate]

/-! Per-iteration and full-loop specification of the smoothing wrapper,
under an engine whose differentiation always succeeds. -/

theorem smoothStep_spec (E : Env) (model : Model) (gt : String) (abs : Bool)
    (G : Bool → Tensor → Tensor) (b : Bool)
    (hE : ∀ hk t, E.backward hk t = Except.ok (G hk t)) (hm : model.isModule = true)
    (hb : (gt = "vanilla" ∧ b = false) ∨ (gt = "guided" ∧ b = true)) (p : Tensor) :
    (smoothStep E model gt p abs).2 = Except.ok (postAbs abs (G b p)) ∧
      backwardInputs (smoothStep E model gt p abs).1 = [p] ∧
      countBackward (smoothStep E model gt p abs).1 = 1 ∧
      (∀ s, allBackZeroed s (smoothStep E model gt p abs).1 = true) ∧
      (∀ s, gradZeroed s (smoothStep E model gt p abs).1 = true) := by
  rcases hb with ⟨hgt, hbv⟩ | ⟨hgt, hbv⟩ <;> subst hgt <;> subst hbv
  · have hs : smoothStep E model "vanilla" p abs = get_vanilla_image_gradient E model p abs := by
      simp [smoothStep]
    rw [hs, vanilla_ok hm (hE false p)]
    exact ⟨rfl, rfl, rfl, fun s => rfl, fun s => rfl⟩
  · have hs : smoothStep E model "guided" p abs = get_guided_image_gradient E model p abs := by
      simp [smoothStep]
    rw [hs, guided_ok hm (hE true p)]
    refine ⟨rfl, by simp, by simp, fun s => ?_, fun s => ?_⟩
    · simp [allBackZeroed, allBackZeroed_append, gradZeroed_append,
        allBackZeroed_replicate_regHook, allBackZeroed_replicate_rmHook,
        gradZeroed_replicate_regHook, gradZeroed_replicate_rmHook, gradZeroed]
    · simp [gradZeroed, gradZeroed_append, gradZeroed_replicate_regHook,
        gradZeroed_replicate_rmHook]

theorem smoothLoop_spec (E : Env) (model : Model) (abs : Bool) (eps : ℚ) (gt : String)
    (randn : Nat → Nat → Tensor) (G : Bool → Tensor → Tensor) (b : Bool)
    (hE : ∀ hk t, E.backward hk t = Except.ok (G hk t)) (hm : model.isModule = true)
    (hb : (gt = "vanilla" ∧ b = false) ∨ (gt = "guided" ∧ b = true)) :
    ∀ fuel i inpt,
      (smoothLoop E model abs eps gt randn i fuel inpt).2 =
          Except.ok ((inputsSeq randn eps i fuel inpt).map (fun t => postAbs abs (G b t))) ∧
        backwardInputs (smoothLoop E model abs eps gt randn i fuel inpt).1 =
          inputsSeq randn eps i fuel inpt ∧
        countBackward (smoothLoop E model abs eps gt randn i fuel inpt).1 = fuel ∧
        (∀ s, allBackZeroed s (smoothLoop E model abs eps gt randn i fuel inpt).1 = true) ∧
        (∀ s, gradZeroed s (smoothLoop E model abs eps gt randn i fuel inpt).1 =
          if fuel = 0 then s else true) := by
  intro fuel
  induction fuel with
  | zero =>
      intro i inpt
      exact ⟨rfl, rfl, rfl, fun s => rfl, fun s => rfl⟩
  | succ fuel ih =>
      intro i inpt
      obtain ⟨h1, h2, h3, h4, h5⟩ :=
        smoothStep_spec E model gt abs G b hE hm hb (tadd inpt (tmul (randn i inpt.length) eps))
      obtain ⟨ih1, ih2, ih3, ih4, ih5⟩ := ih (i + 1) (tadd inpt (tmul (randn i inpt.length) eps))
      have hunf : smoothLoop E model abs eps gt randn i (fuel + 1) inpt =
          ((smoothStep E model gt (tadd inpt (tmul (randn i inpt.length) eps)) abs).1 ++
              (smoothLoop E model abs eps gt randn (i + 1) fuel
                (tadd inpt (tmul (randn i inpt.length) eps))).1,
            Except.ok (postAbs abs (G b (tadd inpt (tmul (randn i inpt.length) eps))) ::
              (inputsSeq randn eps (i + 1) fuel
                (tadd inpt (tmul (randn i inpt.length) eps))).map
                  (fun t => postAbs abs (G b t)))) := by
        simp only [smoothLoop]
        rw [h1, ih1]
      refine ⟨?_, ?_, ?_, fun s => ?_, fun s => ?_⟩
      · rw [hunf]; simp [inputsSeq]
      · rw [hunf]; dsimp only
        simp [h2, ih2, inputsSeq]
      · rw [hunf]; dsimp only
        simp [h3, ih3, Nat.add_comm]
      · rw [hunf]; dsimp only
        simp [allBackZeroed_append, h4, h5, ih4]
      · rw [hunf]; dsimp only
        simp [gradZeroed_append, h5, ih5]

theorem smooth_trace (E : Env) (model : Model) (inpt : Tensor) (abs : Bool) (n_runs : Int)
    (eps : ℚ) (gt : String) (randn : Nat → Nat → Tensor) :
    (get_smooth_image_gradient E model inpt abs n_runs eps gt randn).1 =
      (smoothLoop E model abs eps gt randn 0 n_runs.toNat inpt).1 := by
  cases h : (smoothLoop E model abs eps gt randn 0 n_runs.toNat inpt).2 with
  | error e => simp [get_smooth_image_gradient, h]
  | ok gs =>
      simp only [get_smooth_image_gradient, h]
      split_ifs <;> rfl

theorem sameLens_of_len (L : Nat) (gs : List Tensor) (h : ∀ t ∈ gs, t.length = L) :
    sameLens gs = true := by
  cases gs with
  | nil => rfl
  | cons t ts =>
      simp only [sameLens, List.all_eq_true, decide_eq_true_eq]
      intro u hu
      rw [h u (List.mem_cons_of_mem _ hu), h t (List.mem_cons_self _ _)]

theorem foldr_tadd_length (L : Nat) (base : Tensor) (hb : base.length = L) :
    ∀ gs : List Tensor, (∀ t ∈ gs, t.length = L) → (gs.foldr tadd base).length = L := by
  intro gs
  induction gs with
  | nil => intro _; simpa using hb
  | cons t ts ih =>
      intro h
      have ht := h t (List.mem_cons_self _ _)
      have hts := ih (fun u hu => h u (List.mem_cons_of_mem _ hu))
      simp [length_tadd, ht, hts]

theorem meanStack_length (L : Nat) (gs : List Tensor) (hne : gs ≠ [])
    (h : ∀ t ∈ gs, t.length = L) : (meanStack gs).length = L := by
  cases gs with
  | nil => exact absurd rfl hne
  | cons t ts =>
      have ht := h t (List.mem_cons_self _ _)
      simp only [meanStack, List.headD_cons, List.length_map]
      exact foldr_tadd_length L _ (by simp [zeros_like, ht]) (t :: ts) h

theorem meanStack_single (g : Tensor) : meanStack [g] = g := by
  simp [meanStack, zeros_like, tadd_zeros, div_one]

/-- Each collected per-run gradient has the input's length (shape). -/
theorem mapped_grads_length (randn : Nat → Nat → Tensor) (eps : ℚ) (inpt : Tensor)
    (G : Bool → Tensor → Tensor) (b : Bool) (abs : Bool)
    (hG : ∀ hk t, (G hk t).length = t.length) (hr : ∀ i n, (randn i n).length = n) (n : Nat) :
    ∀ t ∈ (inputsSeq randn eps 0 n inpt).map (fun t => postAbs abs (G b t)),
      t.length = inpt.length := by
  intro t ht
  obtain ⟨u, hu, rfl⟩ := List.mem_map.mp ht
  rw [length_postAbs, hG, inputsSeq_mem_length randn eps hr n 0 inpt u hu]

/-- A successful smoothing run returns the elementwise mean of the
per-run gradients taken at the compounding-noise inputs. -/
theorem smooth_ok (E : Env) (model : Model) (inpt : Tensor) (abs : Bool) (n_runs : Int)
    (eps : ℚ) (gt : String) (randn : Nat → Nat → Tensor) (G : Bool → Tensor → Tensor) (b : Bool)
    (hE : ∀ hk t, E.backward hk t = Except.ok (G hk t))
    (hG : ∀ hk t, (G hk t).length = t.length)
    (hm : model.isModule = true) (hr : ∀ i n, (randn i n).length = n)
    (hb : (gt = "vanilla" ∧ b = false) ∨ (gt = "guided" ∧ b = true))
    (hfuel : n_runs.toNat ≠ 0) :
    (get_smooth_image_gradient E model inpt abs n_runs eps gt randn).2 =
      Except.ok (meanStack ((inputsSeq randn eps 0 n_runs.toNat inpt).map
        (fun t => postAbs abs (G b t)))) := by
  obtain ⟨h1, -, -, -, -⟩ :=
    smoothLoop_spec E model abs eps gt randn G b hE hm hb n_runs.toNat 0 inpt
  have hlen := mapped_grads_length randn eps inpt G b abs hG hr n_runs.toNat
  have hlenl : ((inputsSeq randn eps 0 n_runs.toNat inpt).map
      (fun t => postAbs abs (G b t))).length = n_runs.toNat := by
    rw [List.length_map, inputsSeq_length_list]
  have hne : (inputsSeq randn eps 0 n_runs.toNat inpt).map
      (fun t => postAbs abs (G b t)) ≠ [] := by
    intro hnil
    rw [hnil] at hlenl
    simp at hlenl
    exact hfuel hlenl.symm
  have hsl := sameLens_of_len inpt.length _ hlen
  have hemp : ((inputsSeq randn eps 0 n_runs.toNat inpt).map
      (fun t => postAbs abs (G b t))).isEmpty = false := by
    cases hc : (inputsSeq randn eps 0 n_runs.toNat inpt).map (fun t => postAbs abs (G b t)) with
    | nil => exact absurd hc hne
    | cons _ _ => rfl
  simp only [get_smooth_image_gradient, h1]
  simp [hemp, hsl]

/-- C3: in the smoothing wrapper, the input at which the `i`-th inner
gradient computation is triggered (1-based `i`, read off the trace's
`backward` events) equals the original input plus the sum of the first
`i` noise draws each scaled by `eps`: the noise compounds onto the
already-perturbed input instead of being applied fresh to the original. -/
theorem C3_noise_compounds (E : Env) (model : Model) (inpt : Tensor) (abs : Bool) (eps : ℚ)
    (gt : String) (randn : Nat → Nat → Tensor) (n_runs : Int) (G : Bool → Tensor → Tensor)
    (b : Bool)
    (hE : ∀ hk t, E.backward hk t = Except.ok (G hk t)) (hm : model.isModule = true)
    (hr : ∀ i n, (randn i n).length = n)
    (hb : (gt = "vanilla" ∧ b = false) ∨ (gt = "guided" ∧ b = true)) :
    backwardInputs (get_smooth_image_gradient E model inpt abs n_runs eps gt randn).1 =
      (List.range n_runs.toNat).map
        (fun k => tadd inpt (noiseSum randn eps inpt.length (k + 1))) := by
  obtain ⟨-, h2, -, -, -⟩ :=
    smoothLoop_spec E model abs eps gt randn G b hE hm hb n_runs.toNat 0 inpt
  rw [smooth_trace, h2, inputsSeq_from_start randn eps inpt hr]

theorem C3_witness :
    backwardInputs (get_smooth_image_gradient ⟨fun _ t => Except.ok t⟩ ⟨true, 1⟩ [4] false 2 1
        "vanilla" (fun _ n => List.replicate n 1)).1 =
      (List.range (2 : Int).toNat).map
        (fun k => tadd [4] (noiseSum (fun _ n => List.replicate n 1) 1 ([4] : Tensor).length
          (k + 1))) :=
  C3_noise_compounds _ _ _ _ _ _ _ _ (fun _ t => t) false (fun _ _ => rfl) rfl
    (fun _ n => by simp) (Or.inl ⟨rfl, rfl⟩)

/-- C4: for a positive run count and an inner selector in
{vanilla, guided}, the smoothing wrapper triggers exactly `n_runs` inner
gradient computations (counted as `backward` events in its trace) and
returns the elementwise mean of the per-run gradients collected in
invocation order, a tensor of the same shape as one run's gradient
(the input's shape). -/
theorem C4_run_count_and_mean (E : Env) (model : Model) (inpt : Tensor) (abs : Bool)
    (eps : ℚ) (gt : String) (randn : Nat → Nat → Tensor) (n_runs : Int)
    (G : Bool → Tensor → Tensor) (b : Bool)
    (hE : ∀ hk t, E.backward hk t = Except.ok (G hk t))
    (hG : ∀ hk t, (G hk t).length = t.length)
    (hm : model.isModule = true) (hr : ∀ i n, (randn i n).length = n)
    (hb : (gt = "vanilla" ∧ b = false) ∨ (gt = "guided" ∧ b = true))
    (hn : 1 ≤ n_runs) :
    (countBackward (get_smooth_image_gradient E model inpt abs n_runs eps gt randn).1 : Int) =
        n_runs ∧
      (get_smooth_image_gradient E model inpt abs n_runs eps gt randn).2 =
        Except.ok (meanStack ((inputsSeq randn eps 0 n_runs.toNat inpt).map
          (fun t => postAbs abs (G b t)))) ∧
      (meanStack ((inputsSeq randn eps 0 n_runs.toNat inpt).map
          (fun t => postAbs abs (G b t)))).length = inpt.length := by
  have hfuel : n_runs.toNat ≠ 0 := by omega
  obtain ⟨-, -, h3, -, -⟩ :=
    smoothLoop_spec E model abs eps gt randn G b hE hm hb n_runs.toNat 0 inpt
  refine ⟨?_, smooth_ok E model inpt abs n_runs eps gt randn G b hE hG hm hr hb hfuel, ?_⟩
  · rw [smooth_trace, h3]; omega
  · have hlen := mapped_grads_length randn eps inpt G b abs hG hr n_runs.toNat
    have hlenl : ((inputsSeq randn eps 0 n_runs.toNat inpt).map
        (fun t => postAbs abs (G b t))).length = n_runs.toNat := by
      rw [List.length_map, inputsSeq_length_list]
    have hne : (inputsSeq randn eps 0 n_runs.toNat inpt).map
        (fun t => postAbs abs (G b t)) ≠ [] := by
      intro hnil
      rw [hnil] at hlenl
      simp at hlenl
      exact hfuel hlenl.symm
    exact meanStack_length inpt.length _ hne hlen

theorem C4_witness :
    (countBackward (get_smooth_image_gradient ⟨fun _ t => Except.ok t⟩ ⟨true, 1⟩ [4] false 3 1
        "guided" (fun _ n => List.replicate n 1)).1 : Int) = 3 ∧
      (get_smooth_image_gradient ⟨fun _ t => Except.ok t⟩ ⟨true, 1⟩ [4] false 3 1
          "guided" (fun _ n => List.replicate n 1)).2 =
        Except.ok (meanStack ((inputsSeq (fun _ n => List.replicate n 1) 1 0 (3 : Int).toNat
          [4]).map (fun t => postAbs false ((fun _ t => t : Bool → Tensor → Tensor) true t)))) ∧
      (meanStack ((inputsSeq (fun _ n => List.replicate n 1) 1 0 (3 : Int).toNat [4]).map
          (fun t => postAbs false ((fun _ t => t : Bool → Tensor → Tensor) true t)))).length =
        ([4] : Tensor).length :=
  C4_run_count_and_mean _ _ _ _ _ _ _ _ (fun _ t => t) true (fun _ _ => rfl) (fun _ _ => rfl)
    rfl (fun _ n => by simp) (Or.inr ⟨rfl, rfl⟩) (by omega)

/-- C5: smoothing with `n_runs = 1` and `eps = 0` returns exactly the
gradient of the corresponding non-smoothed single-run extractor (same
`abs` flag) applied to the unperturbed input. -/
theorem C5_single_run_zero_eps (E : Env) (model : Model) (inpt : Tensor) (abs : Bool)
    (gt : String) (randn : Nat → Nat → Tensor)
    (hr : ∀ i n, (randn i n).length = n)
    (hgt : gt = "vanilla" ∨ gt = "guided") :
    (get_smooth_image_gradient E model inpt abs 1 0 gt randn).2 =
      (if gt = "vanilla" then get_vanilla_image_gradient E model inpt abs
        else get_guided_image_gradient E model inpt abs).2 := by
  have hstep : smoothStep E model gt inpt abs =
      (if gt = "vanilla" then get_vanilla_image_gradient E model inpt abs
        else get_guided_image_gradient E model inpt abs) := by
    rcases hgt with h | h <;> subst h <;> simp [smoothStep]
  have hp : tadd inpt (tmul (randn 0 inpt.length) 0) = inpt := by
    rw [tmul_zero, hr 0 inpt.length, tadd_zeros]
  have hloop : smoothLoop E model abs 0 gt randn 0 1 inpt =
      ((smoothStep E model gt inpt abs).1,
        match (smoothStep E model gt inpt abs).2 with
        | Except.error e => Except.error e
        | Except.ok g => Except.ok [g]) := by
    simp only [smoothLoop, hp]
    cases hs : (smoothStep E model gt inpt abs).2 with
    | error e => simp [hs]
    | ok g => simp [hs, smoothLoop]
  rw [← hstep]
  have ht1 : (1 : Int).toNat = 1 := rfl
  simp only [get_smooth_image_gradient, ht1, hloop]
  cases hs : (smoothStep E model gt inpt abs).2 with
  | error e => simp [hs]
  | ok g => simp [hs, sameLens, meanStack_single]

theorem C5_witness :
    (get_smooth_image_gradient ⟨fun _ t => Except.ok (tmul t 2)⟩ ⟨true, 1⟩ [3] true 1 0
        "vanilla" (fun _ n => List.replicate n 1)).2 =
      (if ("vanilla" : String) = "vanilla" then
          get_vanilla_image_gradient ⟨fun _ t => Except.ok (tmul t 2)⟩ ⟨true, 1⟩ [3] true
        else get_guided_image_gradient ⟨fun _ t => Except.ok (tmul t 2)⟩ ⟨true, 1⟩ [3] true).2 :=
  C5_single_run_zero_eps _ _ _ _ _ _ (fun _ n => by simp) (Or.inl rfl)

/-- C1 as stated is false: when `err.backward()` raises inside
`get_guided_image_gradient`, the hooks registered on the sub-modules are
not removed (the exception propagates before the removal loop runs).
Concretely, with 2 sub-modules and a failing backward pass, the call
raises with 2 hooks registered and 0 removed. -/
theorem C1_counterexample :
    countRmHook (get_guided_image_gradient ⟨fun _ _ => Except.error ()⟩ ⟨true, 2⟩ [1] false).1 ≠
        countRegHook
          (get_guided_image_gradient ⟨fun _ _ => Except.error ()⟩ ⟨true, 2⟩ [1] false).1 ∧
      countRegHook
          (get_guided_image_gradient ⟨fun _ _ => Except.error ()⟩ ⟨true, 2⟩ [1] false).1 = 2 ∧
      (get_guided_image_gradient ⟨fun _ _ => Except.error ()⟩ ⟨true, 2⟩ [1] false).2 =
        Except.error () := by
  decide

/-- C1 (amended): on every call of `get_guided_image_gradient` that
returns normally (differentiation did not raise), every backward hook
registered during the call is removed before the call finishes, so the
number of hook registrations in the call's trace equals the number of
hook removals. -/
theorem C1_guided_hooks_removed_on_success (E : Env) (model : Model) (inpt g : Tensor)
    (abs : Bool) (h : (get_guided_image_gradient E model inpt abs).2 = Except.ok g) :
    countRmHook (get_guided_image_gradient E model inpt abs).1 =
      countRegHook (get_guided_image_gradient E model inpt abs).1 := by
  cases hm : model.isModule with
  | false => simp [get_guided_image_gradient, hm] at h
  | true =>
      cases hg : E.backward true inpt with
      | error e => rw [guided_err hm hg] at h; simp at h
      | ok g' =>
          rw [guided_ok hm hg]
          simp [countRmHook, countRegHook, List.countP_cons, List.countP_append,
            countP_replicate]

theorem C1_witness :
    (get_guided_image_gradient ⟨fun _ t => Except.ok t⟩ ⟨true, 2⟩ [1] false).2 =
        Except.ok [1] ∧
      countRmHook (get_guided_image_gradient ⟨fun _ t => Except.ok t⟩ ⟨true, 2⟩ [1] false).1 =
        countRegHook
          (get_guided_image_gradient ⟨fun _ t => Except.ok t⟩ ⟨true, 2⟩ [1] false).1 :=
  ⟨by decide, C1_guided_hooks_removed_on_success _ _ _ [1] _ (by decide)⟩

/-- C2: for a `grad_type` not among the four recognized tags, the
dispatcher `get_input_gradient` (on a model with the zero-grad
capability) returns a zero tensor of the input's shape, emits exactly
one warning in its trace, and passes exactly that tensor to the
`results_fn` sink as its sole positional argument. -/
theorem C2_unrecognized_grad_type (E : Env) (model : Model) (inpt : Tensor) (gt : String)
    (n_runs : Int) (eps : ℚ) (abs : Bool) (randn : Nat → Nat → Tensor)
    (hm : model.isModule = true) (h1 : gt ≠ "vanilla") (h2 : gt ≠ "guided")
    (h3 : gt ≠ "smooth-vanilla") (h4 : gt ≠ "smooth-guided") :
    (get_input_gradient E model inpt gt n_runs eps abs randn).2 =
        Except.ok (List.replicate inpt.length 0) ∧
      countWarn (get_input_gradient E model inpt gt n_runs eps abs randn).1 = 1 ∧
      sinkArgs (get_input_gradient E model inpt gt n_runs eps abs randn).1 =
        [List.replicate inpt.length 0] := by
  simp [get_input_gradient, dispatchBranch, hm, h1, h2, h3, h4, zeros_like, countWarn,
    sinkArgs, List.countP_cons, List.countP_append]

theorem C2_witness :
    (get_input_gradient ⟨fun _ t => Except.ok t⟩ ⟨true, 1⟩ [5, 7] "foo" 20 1 false
          (fun _ n => List.replicate n 1)).2 =
        Except.ok (List.replicate ([5, 7] : Tensor).length 0) ∧
      countWarn (get_input_gradient ⟨fun _ t => Except.ok t⟩ ⟨true, 1⟩ [5, 7] "foo" 20 1 false
          (fun _ n => List.replicate n 1)).1 = 1 ∧
      sinkArgs (get_input_gradient ⟨fun _ t => Except.ok t⟩ ⟨true, 1⟩ [5, 7] "foo" 20 1 false
          (fun _ n => List.replicate n 1)).1 =
        [List.replicate ([5, 7] : Tensor).length 0] :=
  C2_unrecognized_grad_type _ _ _ _ _ _ _ _ rfl (by decide) (by decide) (by decide) (by decide)

/-- C9: the dispatcher calls `model.zero_grad()` unconditionally before
dispatching, so on a model without that capability it raises for every
`grad_type`, while the direct extractor `get_vanilla_image_gradient`
guards the reset with an `isinstance` check and succeeds on tensor-level
callables whose differentiation succeeds. -/
theorem C9_dispatcher_requires_module (E : Env) (model : Model) (inpt g : Tensor)
    (gt : String) (n_runs : Int) (eps : ℚ) (abs : Bool) (randn : Nat → Nat → Tensor)
    (hm : model.isModule = false) (hg : E.backward false inpt = Except.ok g) :
    (get_input_gradient E model inpt gt n_runs eps abs randn).2 = Except.error () ∧
      (get_vanilla_image_gradient E model inpt abs).2 = Except.ok (postAbs abs g) := by
  simp [get_input_gradient, hm, get_vanilla_image_gradient, hg]

theorem C9_witness :
    (get_input_gradient ⟨fun _ t => Except.ok t⟩ ⟨false, 0⟩ [3] "vanilla" 20 1 false
          (fun _ n => List.replicate n 1)).2 = Except.error () ∧
      (get_vanilla_image_gradient ⟨fun _ t => Except.ok t⟩ ⟨false, 0⟩ [3] false).2 =
        Except.ok (postAbs false [3]) :=
  C9_dispatcher_requires_module _ _ _ [3] _ _ _ _ _ rfl rfl

/-- C10: with a non-positive `n_runs`, the smoothing loop body never runs
(the trace is empty, so no inner extractor is invoked), and the call
raises when `torch.stack` is applied to the empty gradient list instead
of returning a tensor. -/
theorem C10_nonpositive_runs_raise (E : Env) (model : Model) (inpt : Tensor) (abs : Bool)
    (eps : ℚ) (gt : String) (randn : Nat → Nat → Tensor) (n_runs : Int)
    (hn : n_runs ≤ 0) :
    get_smooth_image_gradient E model inpt abs n_runs eps gt randn = ([], Except.error ()) := by
  have h0 : n_runs.toNat = 0 := Int.toNat_eq_zero.mpr hn
  simp [get_smooth_image_gradient, h0, smoothLoop]

theorem C10_witness :
    get_smooth_image_gradient ⟨fun _ t => Except.ok t⟩ ⟨true, 1⟩ [3] true (-2) 1 "vanilla"
        (fun _ n => List.replicate n 1) = ([], Except.error ()) :=
  C10_nonpositive_runs_raise _ _ _ _ _ _ _ _ (by decide)

/-! Gradient-state discipline (claim C6). -/

theorem guided_P (E : Env) (model : Model) (p : Tensor) (abs : Bool) (g : Tensor)
    (hm : model.isModule = true) (hg : E.backward true p = Except.ok g) :
    (∀ s, allBackZeroed s (get_guided_image_gradient E model p abs).1 = true) ∧
      (∀ s, gradZeroed s (get_guided_image_gradient E model p abs).1 = true) := by
  rw [guided_ok hm hg]
  constructor <;> intro s <;>
    simp [allBackZeroed, gradZeroed, allBackZeroed_append, gradZeroed_append,
      allBackZeroed_replicate_regHook, allBackZeroed_replicate_rmHook,
      gradZeroed_replicate_regHook, gradZeroed_replicate_rmHook]

theorem wrapped_trace_P (tr : List Event) (g : Tensor)
    (hP : ∀ s, allBackZeroed s tr = true) :
    allBackZeroed false (Event.zeroGrad :: tr ++ [Event.zeroGrad, Event.sink g]) = true ∧
      gradZeroed false (Event.zeroGrad :: tr ++ [Event.zeroGrad, Event.sink g]) = true := by
  have htail1 : ∀ s, allBackZeroed s [Event.zeroGrad, Event.sink g] = true := fun s => rfl
  have htail2 : ∀ s, gradZeroed s [Event.zeroGrad, Event.sink g] = true := fun s => rfl
  constructor
  · simp [allBackZeroed, allBackZeroed_append, hP, htail1]
  · simp [gradZeroed, gradZeroed_append, htail2]

theorem get_input_gradient_ok (E : Env) (model : Model) (inpt : Tensor) (gt : String)
    (n_runs : Int) (eps : ℚ) (abs : Bool) (randn : Nat → Nat → Tensor) (g : Tensor)
    (hm : model.isModule = true)
    (hok : (dispatchBranch E model inpt gt n_runs eps abs randn).2 = Except.ok g) :
    get_input_gradient E model inpt gt n_runs eps abs randn =
      (Event.zeroGrad :: (dispatchBranch E model inpt gt n_runs eps abs randn).1 ++
          [Event.zeroGrad, Event.sink g], Except.ok g) := by
  simp [get_input_gradient, hm, hok]

/-- C6: under an engine whose differentiation always succeeds, every
gradient computation on a model providing the zero-grad capability —
direct, guided, smoothed (with a recognized inner selector and a
positive run count) or through the dispatcher with any tag — triggers
each differentiation only with the accumulated gradients freshly zeroed
(`allBackZeroed`) and leaves them zeroed when it returns (`gradZeroed`). -/
theorem C6_gradients_zeroed (E : Env) (model : Model) (inpt : Tensor) (abs : Bool) (eps : ℚ)
    (randn : Nat → Nat → Tensor) (gt gt2 : String) (n_runs : Int)
    (G : Bool → Tensor → Tensor) (b : Bool)
    (hE : ∀ hk t, E.backward hk t = Except.ok (G hk t))
    (hG : ∀ hk t, (G hk t).length = t.length)
    (hm : model.isModule = true) (hr : ∀ i n, (randn i n).length = n)
    (hb : (gt = "vanilla" ∧ b = false) ∨ (gt = "guided" ∧ b = true))
    (hn : 1 ≤ n_runs) :
    (allBackZeroed false (get_vanilla_image_gradient E model inpt abs).1 = true ∧
        gradZeroed false (get_vanilla_image_gradient E model inpt abs).1 = true) ∧
      (allBackZeroed false (get_guided_image_gradient E model inpt abs).1 = true ∧
        gradZeroed false (get_guided_image_gradient E model inpt abs).1 = true) ∧
      (allBackZeroed false (get_smooth_image_gradient E model inpt abs n_runs eps gt randn).1 =
          true ∧
        gradZeroed false (get_smooth_image_gradient E model inpt abs n_runs eps gt randn).1 =
          true) ∧
      (allBackZeroed false (get_input_gradient E model inpt gt2 n_runs eps abs randn).1 = true ∧
        gradZeroed false (get_input_gradient E model inpt gt2 n_runs eps abs randn).1 = true) := by
  have hfuel : n_runs.toNat ≠ 0 := by omega
  have hvan : (∀ s, allBackZeroed s (get_vanilla_image_gradient E model inpt abs).1 = true) ∧
      (∀ s, gradZeroed s (get_vanilla_image_gradient E model inpt abs).1 = true) := by
    rw [vanilla_ok hm (hE false inpt)]
    exact ⟨fun s => rfl, fun s => rfl⟩
  have hgui := guided_P E model inpt abs _ hm (hE true inpt)
  obtain ⟨-, -, -, h4, h5⟩ :=
    smoothLoop_spec E model abs eps gt randn G b hE hm hb n_runs.toNat 0 inpt
  have hsmooth :
      allBackZeroed false (get_smooth_image_gradient E model inpt abs n_runs eps gt randn).1 =
          true ∧
        gradZeroed false (get_smooth_image_gradient E model inpt abs n_runs eps gt randn).1 =
          true := by
    constructor
    · rw [smooth_trace]; exact h4 false
    · rw [smooth_trace, h5 false]; simp [hfuel]
  obtain ⟨-, -, -, hv4, -⟩ :=
    smoothLoop_spec E model abs eps "vanilla" randn G false hE hm (Or.inl ⟨rfl, rfl⟩)
      n_runs.toNat 0 inpt
  obtain ⟨-, -, -, hg4, -⟩ :=
    smoothLoop_spec E model abs eps "guided" randn G true hE hm (Or.inr ⟨rfl, rfl⟩)
      n_runs.toNat 0 inpt
  have hbr : ∃ g, (dispatchBranch E model inpt gt2 n_runs eps abs randn).2 = Except.ok g ∧
      (∀ s, allBackZeroed s (dispatchBranch E model inpt gt2 n_runs eps abs randn).1 = true) := by
    by_cases h1 : gt2 = "vanilla"
    · have heq : dispatchBranch E model inpt gt2 n_runs eps abs randn =
          get_vanilla_image_gradient E model inpt abs := by simp [dispatchBranch, h1]
      rw [heq, vanilla_ok hm (hE false inpt)]
      exact ⟨_, rfl, fun s => rfl⟩
    by_cases h2 : gt2 = "guided"
    · have heq : dispatchBranch E model inpt gt2 n_runs eps abs randn =
          get_guided_image_gradient E model inpt abs := by simp [dispatchBranch, h1, h2]
      rw [heq]
      exact ⟨_, by rw [guided_ok hm (hE true inpt)],
        (guided_P E model inpt abs _ hm (hE true inpt)).1⟩
    by_cases h3 : gt2 = "smooth-vanilla"
    · have heq : dispatchBranch E model inpt gt2 n_runs eps abs randn =
          get_smooth_image_gradient E model inpt abs n_runs eps "vanilla" randn := by
        simp [dispatchBranch, h1, h2, h3]
      rw [heq]
      exact ⟨_, smooth_ok E model inpt abs n_runs eps "vanilla" randn G false hE hG hm hr
          (Or.inl ⟨rfl, rfl⟩) hfuel,
        fun s => by rw [smooth_trace]; exact hv4 s⟩
    by_cases h4' : gt2 = "smooth-guided"
    · have heq : dispatchBranch E model inpt gt2 n_runs eps abs randn =
          get_smooth_image_gradient E model inpt abs n_runs eps "guided" randn := by
        simp [dispatchBranch, h1, h2, h3, h4']
      rw [heq]
      exact ⟨_, smooth_ok E model inpt abs n_runs eps "guided" randn G true hE hG hm hr
          (Or.inr ⟨rfl, rfl⟩) hfuel,
        fun s => by rw [smooth_trace]; exact hg4 s⟩
    · have heq : dispatchBranch E model inpt gt2 n_runs eps abs randn =
          ([Event.warn "This grad_type is not implemented yet"],
            Except.ok (zeros_like inpt)) := by
        simp [dispatchBranch, h1, h2, h3, h4']
      rw [heq]
      exact ⟨_, rfl, fun s => rfl⟩
  obtain ⟨g, hok, hP⟩ := hbr
  rw [get_input_gradient_ok E model inpt gt2 n_runs eps abs randn g hm hok]
  exact ⟨⟨hvan.1 false, hvan.2 false⟩, ⟨hgui.1 false, hgui.2 false⟩, hsmooth,
    wrapped_trace_P _ g hP⟩

theorem C6_witness :
    (allBackZeroed false (get_vanilla_image_gradient ⟨fun _ t => Except.ok t⟩ ⟨true, 1⟩ [2]
          false).1 = true ∧
        gradZeroed false (get_vanilla_image_gradient ⟨fun _ t => Except.ok t⟩ ⟨true, 1⟩ [2]
          false).1 = true) ∧
      (allBackZeroed false (get_guided_image_gradient ⟨fun _ t => Except.ok t⟩ ⟨true, 1⟩ [2]
            false).1 = true ∧
        gradZeroed false (get_guided_image_gradient ⟨fun _ t => Except.ok t⟩ ⟨true, 1⟩ [2]
          false).1 = true) ∧
      (allBackZeroed false (get_smooth_image_gradient ⟨fun _ t => Except.ok t⟩ ⟨true, 1⟩ [2]
            false 1 1 "vanilla" (fun _ n => List.replicate n 1)).1 = true ∧
        gradZeroed false (get_smooth_image_gradient ⟨fun _ t => Except.ok t⟩ ⟨true, 1⟩ [2]
          false 1 1 "vanilla" (fun _ n => List.replicate n 1)).1 = true) ∧
      (allBackZeroed false (get_input_gradient ⟨fun _ t => Except.ok t⟩ ⟨true, 1⟩ [2]
            "smooth-guided" 1 1 false (fun _ n => List.replicate n 1)).1 = true ∧
        gradZeroed false (get_input_gradient ⟨fun _ t => Except.ok t⟩ ⟨true, 1⟩ [2]
          "smooth-guided" 1 1 false (fun _ n => List.replicate n 1)).1 = true) :=
  C6_gradients_zeroed _ _ _ _ _ _ "vanilla" "smooth-guided" _ (fun _ t => t) false
    (fun _ _ => rfl) (fun _ _ => rfl) rfl (fun _ n => by simp) (Or.inl ⟨rfl, rfl⟩)
    (by omega)

/-- C7: during the guided backward pass the hook replaces the incoming
gradient with its first component clamped to nonnegative values exactly
when the owning sub-module is a ReLU or LeakyReLU unit, and leaves the
incoming gradient of every other sub-module unchanged. -/
theorem C7_hook_clamps_relu_only (md : TorchModule) (g0 : Tensor)
    (rest grad_out : List Tensor) :
    effectiveGradIn md (g0 :: rest) grad_out =
      Except.ok (if isReLUFamily md then [tclamp0 g0] else g0 :: rest) := by
  cases md <;> simp [effectiveGradIn, guided_relu_hook_function, isReLUFamily]

@[simp] theorem dictKeys_nil : dictKeys [] = [] := rfl

@[simp] theorem dictKeys_cons (p : String × ℚ) (d : StateDict) :
    dictKeys (p :: d) = p.1 :: dictKeys d := rfl

theorem dlookup_eq_none_iff (k : String) : ∀ d : StateDict,
    dlookup k d = none ↔ k ∉ dictKeys d := by
  intro d
  induction d with
  | nil => simp [dlookup]
  | cons p rest ih =>
      by_cases hp : p.1 = k
      · simp [dlookup, hp]
      · simp [dlookup, hp, ih, Ne.symm hp]

theorem dlookup_isSome_of_mem (k : String) : ∀ d : StateDict,
    k ∈ dictKeys d → ∃ v, dlookup k d = some v := by
  intro d
  induction d with
  | nil => simp
  | cons p rest ih =>
      intro hk
      by_cases hp : p.1 = k
      · exact ⟨p.2, by simp [dlookup, hp]⟩
      · rcases List.mem_cons.mp hk with h | h
        · exact absurd h.symm hp
        · obtain ⟨v, hv⟩ := ih h
          exact ⟨v, by simp [dlookup, hp, hv]⟩

theorem dlookup_append (k : String) : ∀ a b : StateDict,
    dlookup k (a ++ b) =
      match dlookup k a with
      | some v => some v
      | none => dlookup k b := by
  intro a b
  induction a with
  | nil => simp [dlookup]
  | cons p rest ih => by_cases hp : p.1 = k <;> simp [dlookup, hp, ih]

theorem updEntry_fst (u : StateDict) (p : String × ℚ) : (updEntry u p).1 = p.1 := by
  cases h : dlookup p.1 u <;> simp [updEntry, h]

theorem dlookup_map_updEntry (u : StateDict) : ∀ (d : StateDict) (k : String),
    dlookup k (d.map (updEntry u)) =
      match dlookup k d with
      | none => none
      | some v =>
          match dlookup k u with
          | some w => some w
          | none => some v := by
  intro d
  induction d with
  | nil => intro k; rfl
  | cons p rest ih =>
      intro k
      by_cases hp : p.1 = k
      · subst hp
        cases h : dlookup p.1 u <;> simp [dlookup, updEntry, h]
      · simp [dlookup, updEntry_fst, hp, ih]

theorem dictKeys_map_updEntry (u d : StateDict) :
    dictKeys (d.map (updEntry u)) = dictKeys d := by
  simp only [dictKeys, List.map_map]
  exact List.map_congr_left (fun p _ => updEntry_fst u p)

theorem dlookup_filter_of_key_true (pred : String → Bool) (k : String)
    (hk : pred k = true) : ∀ u : StateDict,
    dlookup k (u.filter (fun p => pred p.1)) = dlookup k u := by
  intro u
  induction u with
  | nil => rfl
  | cons p rest ih =>
      by_cases hp : p.1 = k
      · subst hp
        simp [List.filter_cons, hk, dlookup]
      · cases hq : pred p.1 <;> simp [List.filter_cons, hq, dlookup, hp, ih]

theorem dlookup_filter_of_key_false (pred : String → Bool) (k : String)
    (hk : pred k = false) : ∀ u : StateDict,
    dlookup k (u.filter (fun p => pred p.1)) = none := by
  intro u
  induction u with
  | nil => rfl
  | cons p rest ih =>
      by_cases hp : p.1 = k
      · subst hp
        simp [List.filter_cons, hk, ih]
      · cases hq : pred p.1 <;> simp [List.filter_cons, hq, dlookup, hp, ih]

theorem dlookup_filter_none (q : String × ℚ → Bool) (k : String) : ∀ u : StateDict,
    dlookup k u = none → dlookup k (u.filter q) = none := by
  intro u
  induction u with
  | nil => intro _; rfl
  | cons p rest ih =>
      intro h
      by_cases hp : p.1 = k
      · simp [dlookup, hp] at h
      · have h' : dlookup k rest = none := by simpa [dlookup, hp] using h
        cases hq : q p <;> simp [List.filter_cons, hq, dlookup, hp, ih h']

theorem dictKeys_dictUpdate (d u : StateDict) (hu : ∀ p ∈ u, p.1 ∈ dictKeys d) :
    dictKeys (dictUpdate d u) = dictKeys d := by
  have hfilter : u.filter (fun p => (dlookup p.1 d).isNone) = [] := by
    rw [List.filter_eq_nil_iff]
    intro p hp
    obtain ⟨v, hv⟩ := dlookup_isSome_of_mem p.1 d (hu p hp)
    simp [hv]
  rw [dictUpdate, hfilter, List.append_nil, dictKeys_map_updEntry]

/-! Warning-message formatting is injective and unambiguous. -/

theorem fmtUnused_inj : Function.Injective fmtUnused := by
  intro a b h
  have hd := congrArg String.data h
  simp only [fmtUnused, String.data_append] at hd
  exact String.ext (List.append_cancel_left (List.append_cancel_right hd))

theorem fmtNotUpdated_inj : Function.Injective fmtNotUpdated := by
  intro a b h
  have hd := congrArg String.data h
  simp only [fmtNotUpdated, String.data_append] at hd
  exact String.ext (List.append_cancel_right hd)

theorem fmtUnused_ne_fmtNotUpdated (a b : String) : fmtUnused a ≠ fmtNotUpdated b := by
  intro h
  have hd := congrArg (fun s => s.data.reverse) h
  simp only [fmtUnused, fmtNotUpdated, String.data_append, List.reverse_append] at hd
  have e1 : ((" not used." : String).data).reverse =
      ['.', 'd', 'e', 's', 'u', ' ', 't', 'o', 'n', ' '] := rfl
  have e2 : ((" layer not updated." : String).data).reverse =
      ['.', 'd', 'e', 't', 'a', 'd', 'p', 'u', ' ', 't', 'o', 'n', ' ', 'r', 'e', 'y', 'a',
        'l', ' '] := rfl
  rw [e1, e2] at hd
  simp at hd

theorem keepKey_eq_true_iff (m : StateDict) (e : List String) (k : String) :
    keepKey m e k = true ↔ k ∈ dictKeys m ∧ k ∉ e := by
  simp [keepKey]

/-- C8: merging with warnings enabled leaves the model's key list
unchanged; each model key takes the update's value exactly when it is in
the update and not excluded, and keeps its prior value otherwise; exactly
one warning is emitted per unused key and per not-updated key; and no
update key absent from the model is added. -/
theorem C8_update_model (model_sd update_dict : StateDict) (exclude_layers : List String) :
    dictKeys (update_model model_sd update_dict exclude_layers true).1 =
        dictKeys model_sd ∧
      (∀ k, k ∈ dictKeys model_sd →
        dlookup k (update_model model_sd update_dict exclude_layers true).1 =
          if k ∈ dictKeys update_dict ∧ k ∉ exclude_layers then dlookup k update_dict
          else dlookup k model_sd) ∧
      (∀ k, k ∈ dictKeys update_dict → k ∉ exclude_layers → k ∉ dictKeys model_sd →
        Multiset.count (fmtUnused k)
          (update_model model_sd update_dict exclude_layers true).2 = 1) ∧
      (∀ k, k ∈ dictKeys model_sd → k ∉ exclude_layers → k ∉ dictKeys update_dict →
        Multiset.count (fmtNotUpdated k)
          (update_model model_sd update_dict exclude_layers true).2 = 1) ∧
      (∀ k, k ∈ dictKeys update_dict → k ∉ dictKeys model_sd →
        k ∉ dictKeys (update_model model_sd update_dict exclude_layers true).1) := by
  have hfst : (update_model model_sd update_dict exclude_layers true).1 =
      dictUpdate model_sd
        (update_dict.filter (fun p => keepKey model_sd exclude_layers p.1)) := rfl
  have hsnd : (update_model model_sd update_dict exclude_layers true).2 =
      (((dictKeys update_dict).toFinset \ exclude_layers.toFinset) \
          (dictKeys model_sd).toFinset).val.map fmtUnused +
        (((dictKeys model_sd).toFinset \ exclude_layers.toFinset) \
          (dictKeys update_dict).toFinset).val.map fmtNotUpdated := rfl
  have hkeys : dictKeys (update_model model_sd update_dict exclude_layers true).1 =
      dictKeys model_sd := by
    rw [hfst]
    apply dictKeys_dictUpdate
    intro p hp
    exact ((keepKey_eq_true_iff model_sd exclude_layers p.1).mp
      (List.mem_filter.mp hp).2).1
  refine ⟨hkeys, ?_, ?_, ?_, ?_⟩
  · intro k hk
    rw [hfst, dictUpdate, dlookup_append, dlookup_map_updEntry]
    obtain ⟨v, hv⟩ := dlookup_isSome_of_mem k model_sd hk
    rw [hv]
    by_cases hcase : k ∈ dictKeys update_dict ∧ k ∉ exclude_layers
    · have hkt : keepKey model_sd exclude_layers k = true :=
        (keepKey_eq_true_iff model_sd exclude_layers k).mpr ⟨hk, hcase.2⟩
      rw [dlookup_filter_of_key_true _ k hkt update_dict]
      obtain ⟨w, hw⟩ := dlookup_isSome_of_mem k update_dict hcase.1
      rw [hw]
      simp [hcase, hw]
    · have hnone : dlookup k
          (update_dict.filter (fun p => keepKey model_sd exclude_layers p.1)) = none := by
        by_cases hU : k ∈ dictKeys update_dict
        · have hE : k ∈ exclude_layers := by
            by_contra hE
            exact hcase ⟨hU, hE⟩
          have hkf : keepKey model_sd exclude_layers k = false := by
            simp [keepKey, hE]
          exact dlookup_filter_of_key_false _ k hkf update_dict
        · exact dlookup_filter_none _ k update_dict
            ((dlookup_eq_none_iff k update_dict).mpr hU)
      rw [hnone]
      simp [hcase, hv]
  · intro k hkU hkE hkM
    rw [hsnd, Multiset.count_add]
    have hmemU : k ∈ (((dictKeys update_dict).toFinset \ exclude_layers.toFinset) \
        (dictKeys model_sd).toFinset) := by
      simp [Finset.mem_sdiff, List.mem_toFinset, hkU, hkE, hkM]
    have h1 : Multiset.count (fmtUnused k)
        ((((dictKeys update_dict).toFinset \ exclude_layers.toFinset) \
          (dictKeys model_sd).toFinset).val.map fmtUnused) = 1 :=
      Multiset.count_eq_one_of_mem (Multiset.Nodup.map fmtUnused_inj (Finset.nodup _))
        (Multiset.mem_map_of_mem fmtUnused hmemU)
    have h2 : Multiset.count (fmtUnused k)
        ((((dictKeys model_sd).toFinset \ exclude_layers.toFinset) \
          (dictKeys update_dict).toFinset).val.map fmtNotUpdated) = 0 := by
      apply Multiset.count_eq_zero_of_not_mem
      intro hmem
      obtain ⟨a, -, ha⟩ := Multiset.mem_map.mp hmem
      exact fmtUnused_ne_fmtNotUpdated k a ha.symm
    rw [h1, h2]
  · intro k hkM hkE hkU
    rw [hsnd, Multiset.count_add]
    have hmemN : k ∈ (((dictKeys model_sd).toFinset \ exclude_layers.toFinset) \
        (dictKeys update_dict).toFinset) := by
      simp [Finset.mem_sdiff, List.mem_toFinset, hkU, hkE, hkM]
    have h1 : Multiset.count (fmtNotUpdated k)
        ((((dictKeys update_dict).toFinset \ exclude_layers.toFinset) \
          (dictKeys model_sd).toFinset).val.map fmtUnused) = 0 := by
      apply Multiset.count_eq_zero_of_not_mem
      intro hmem
      obtain ⟨a, -, ha⟩ := Multiset.mem_map.mp hmem
      exact fmtUnused_ne_fmtNotUpdated a k ha
    have h2 : Multiset.count (fmtNotUpdated k)
        ((((dictKeys model_sd).toFinset \ exclude_layers.toFinset) \
          (dictKeys update_dict).toFinset).val.map fmtNotUpdated) = 1 :=
      Multiset.count_eq_one_of_mem (Multiset.Nodup.map fmtNotUpdated_inj (Finset.nodup _))
        (Multiset.mem_map_of_mem fmtNotUpdated hmemN)
    rw [h1, h2]
  · intro k _ hkM
    rw [hkeys]
    exact hkM

theorem C8_witness :
    dictKeys (update_model [("A", 1), ("B", 2), ("C", 3)]
        [("B", 20), ("C", 30), ("D", 40)] [] true).1 =
        dictKeys [("A", 1), ("B", 2), ("C", 3)] ∧
      dlookup "B" (update_model [("A", 1), ("B", 2), ("C", 3)]
          [("B", 20), ("C", 30), ("D", 40)] [] true).1 =
        (if "B" ∈ dictKeys [("B", 20), ("C", 30), ("D", 40)] ∧
            "B" ∉ ([] : List String) then
          dlookup "B" [("B", 20), ("C", 30), ("D", 40)]
        else dlookup "B" [("A", 1), ("B", 2), ("C", 3)]) ∧
      Multiset.count (fmtUnused "D") (update_model [("A", 1), ("B", 2), ("C", 3)]
          [("B", 20), ("C", 30), ("D", 40)] [] true).2 = 1 ∧
      Multiset.count (fmtNotUpdated "A") (update_model [("A", 1), ("B", 2), ("C", 3)]
          [("B", 20), ("C", 30), ("D", 40)] [] true).2 = 1 ∧
      "D" ∉ dictKeys (update_model [("A", 1), ("B", 2), ("C", 3)]
          [("B", 20), ("C", 30), ("D", 40)] [] true).1 := by
  obtain ⟨w1, w2, w3, w4, w5⟩ := C8_update_model [("A", 1), ("B", 2), ("C", 3)]
    [("B", 20), ("C", 30), ("D", 40)] []
  exact ⟨w1, w2 "B" (by decide), w3 "D" (by decide) (by decide) (by decide),
    w4 "A" (by decide) (by decide) (by decide), w5 "D" (by decide) (by decide)⟩

end Trixi
